import Mathlib

/-!
# RGBpixelmatrix: a WS2811 pixel-matrix driver

Shallow embedding of `RGBpixelmatrix.cpp` / `RGBpixelmatrix.h`.

Target platform is the 8-bit AVR the source is written for (`PORTD`, `DDRD`, `cli`, `sei`):
`int` is 16 bits wide, so `uint8_t` operands are promoted to a 16-bit `int` and a
`uint16_t` operand makes the arithmetic unsigned 16-bit.

Conventions of the embedding.
* Machine integers are `Nat` (or `Int` where an intermediate `int` may go negative) with
  an explicit reduction at every conversion to a narrower type.
* A `uint8_t` parameter is a `Nat` reduced modulo 256 on entry, as the call converts its
  argument.
* The pixel buffer is the list of the bytes of the allocated block.  An access outside the
  block is undefined behaviour in the source; the embedding returns `none` there.
* The output pin and the interrupt flag are observed through a trace of events.
* Floating-point arithmetic is a parameter: a `float` is the rational it denotes and the
  rounding of each operation is supplied by the environment.
-/

namespace RGBPixelmatrix

/-! ## Integer conversions -/

/-- Conversion of an `int` value to `uint8_t`. -/
def toUInt8 (z : Int) : Nat := (z % 256).toNat

/-- Conversion of an integer value to `uint16_t` (also `size_t` on the target). -/
def toUInt16 (z : Int) : Nat := (z % 65536).toNat

/-- Value of a 16-bit signed `int` holding `z` (two's complement wrap-around). -/
def toInt16 (z : Int) : Int :=
  if z % 65536 < 32768 then z % 65536 else z % 65536 - 65536

/-! ## Data model -/

/-- The `struct RGB` of the header: three 8-bit channels. -/
structure RGB where
  r : Nat
  g : Nat
  b : Nat
deriving DecidableEq

/-- The data members of `class RGBpixelmatrix`: the buffer behind `_colorarray`,
`_width`, and `_height` (which holds the row stride, three times the number of lines). -/
structure RGBpixelmatrix where
  _colorarray : List Nat
  _width : Nat
  _height : Nat
deriving DecidableEq

/-- Events observable on the hardware while sending: the global interrupt flag being
cleared or set, the output pin 7 of port D driven high or low, and one `nop` cycle. -/
inductive Event where
  | cli
  | pinHigh
  | nop
  | pinLow
  | sei
deriving DecidableEq

/-! ## Memory access -/

/-- Store of one byte `_colorarray[i] = v`; `none` outside the allocated block. -/
def store (buf : List Nat) (i v : Nat) : Option (List Nat) :=
  if i < buf.length then some (buf.set i (v % 256)) else none

/-- Load of one byte `_colorarray[i]`; `none` outside the allocated block. -/
def load (buf : List Nat) (i : Nat) : Option Nat := buf[i]?

/-- The library call `memset(p, c, n)` on the block starting at `p`: the first `n` bytes
become `(unsigned char) c`; `none` if the block has fewer than `n` bytes. -/
def memset : List Nat → Nat → Nat → Option (List Nat)
  | buf, _, 0 => some buf
  | [], _, _ + 1 => none
  | _ :: rest, c, n + 1 => (memset rest c n).map (fun t => c % 256 :: t)

namespace RGBpixelmatrix

/-! ## Constructor -/

/-- The size passed to `malloc` by the constructor: `(uint16_t)_width*_height` with
`_width = width` and `_height = height*3`, both stored in `uint8_t` members. -/
def mallocSize (width height : Nat) : Nat :=
  let _width := width % 256
  let _height := toUInt8 (((height % 256 : Nat) : Int) * 3)
  (_width * _height) % 65536

/-- The constructor `RGBpixelmatrix(uint8_t width, uint8_t height)`.  `heap i` is the
content found at byte `i` of the block returned by `malloc` (the block is not
initialised); the allocation is taken to succeed.  The write to `DDRD` configures the
pin direction and is not part of the object state. -/
def ctor (width height : Nat) (heap : Nat → Nat) : RGBpixelmatrix :=
  let _width := width % 256
  let _height := toUInt8 (((height % 256 : Nat) : Int) * 3)
  { _width := _width
    _height := _height
    _colorarray := (List.range ((_width * _height) % 65536)).map (fun i => heap i % 256) }

/-! ## Pixel access -/

/-- The value of `columnindex + lineoffset` computed by `getColor`. -/
def getColorOffset (m : RGBpixelmatrix) (column line : Nat) : Nat :=
  let column := column % 256
  let line := line % 256
  let columnindex := (column * m._height) % 65536
  let lineoffset :=
    if column % 2 ≠ 0 then
      toUInt8 ((m._height : Int) - (line : Int) * 3 - 3)
    else
      toUInt8 ((line : Int) * 3)
  (columnindex + lineoffset) % 65536

/-- The method `RGB getColor(uint8_t column, uint8_t line)`. -/
def getColor (m : RGBpixelmatrix) (column line : Nat) : Option RGB := do
  let offset := getColorOffset m column line
  let g ← load m._colorarray offset
  let r ← load m._colorarray ((offset + 1) % 65536)
  let b ← load m._colorarray ((offset + 2) % 65536)
  pure { r := r, g := g, b := b }

/-- The method `uint8_t getWidth(void)`. -/
def getWidth (m : RGBpixelmatrix) : Nat := (m._width / 3) % 256

/-- The method `uint8_t getHeight(void)`. -/
def getHeight (m : RGBpixelmatrix) : Nat := m._height

/-- The value of `columnindex + lineoffset` computed by `setColor`. -/
def setColorOffset (m : RGBpixelmatrix) (column line : Nat) : Nat :=
  let column := column % 256
  let line := line % 256
  let columnindex := (column * m._height) % 65536
  let lineoffset := toUInt8 ((line : Int) * 3)
  let lineoffset :=
    if column % 2 ≠ 0 then
      toUInt8 ((m._height : Int) - (lineoffset : Int) - 3)
    else
      lineoffset
  (columnindex + lineoffset) % 65536

/-- The method `void setColor(uint8_t column, uint8_t line, RGB color)`. -/
def setColor (m : RGBpixelmatrix) (column line : Nat) (color : RGB) :
    Option RGBpixelmatrix := do
  let offset := setColorOffset m column line
  let a ← store m._colorarray offset color.g
  let a ← store a ((offset + 1) % 65536) color.r
  let a ← store a ((offset + 2) % 65536) color.b
  pure { m with _colorarray := a }

/-- The method `void clear(void)`: `memset(_colorarray, 0, _width*_height)`, the product
being an `int` converted to `size_t`. -/
def clear (m : RGBpixelmatrix) : Option RGBpixelmatrix :=
  (memset m._colorarray 0 (toUInt16 (toInt16 ((m._width : Int) * m._height)))).map
    (fun a => { m with _colorarray := a })

/-- The method `void setByte(uint8_t index, uint8_t data)`. -/
def setByte (m : RGBpixelmatrix) (index data : Nat) : Option RGBpixelmatrix :=
  (store m._colorarray (index % 256) (data % 256)).map
    (fun a => { m with _colorarray := a })

/-- The method `uint8_t getByte(uint8_t index)`. -/
def getByte (m : RGBpixelmatrix) (index : Nat) : Option Nat :=
  load m._colorarray (index % 256)

/-! ## Transmission -/

/-- The branch of `sendByte` that writes a "1": pin high, fifteen `nop`, pin low. -/
def writeOne : List Event :=
  [Event.pinHigh,
   Event.nop, Event.nop, Event.nop, Event.nop, Event.nop,
   Event.nop, Event.nop, Event.nop, Event.nop, Event.nop,
   Event.nop, Event.nop, Event.nop, Event.nop, Event.nop,
   Event.pinLow]

/-- The branch of `sendByte` that writes a "0": pin high, five `nop`, pin low. -/
def writeZero : List Event :=
  [Event.pinHigh,
   Event.nop, Event.nop, Event.nop, Event.nop, Event.nop,
   Event.pinLow]

/-- The loop of `sendByte`: `for (cnt = 8; cnt; cnt--)` with the running `bitmask`. -/
def sendByteLoop (data : Nat) : Nat → Nat → List Event
  | _, 0 => []
  | bitmask, cnt + 1 =>
    (if data &&& bitmask ≠ 0 then writeOne else writeZero)
      ++ sendByteLoop data ((bitmask >>> 1) % 256) cnt

/-- The method `void sendByte(uint8_t data)`. -/
def sendByte (data : Nat) : List Event :=
  sendByteLoop (data % 256) 0b10000000 8

/-- The loop of `sendColors`: `for (int16_t index = 0; index < (int16_t)_width * _height;
index++) sendByte(_colorarray[index])`, extending the trace emitted so far.  `none` on a
read outside the block or when the fuel runs out. -/
def sendColorsLoop (m : RGBpixelmatrix) : Nat → Nat → List Event → Option (List Event)
  | 0, _, _ => none
  | fuel + 1, index, trace =>
    if (index : Int) < toInt16 ((m._width : Int) * m._height) then
      match load m._colorarray index with
      | none => none
      | some data => sendColorsLoop m fuel (index + 1) (trace ++ sendByte data)
    else
      some trace

/-- The method `void sendColors(void)`: `cli()`, the loop, `sei()`.  The loop bound is a
positive `int16_t`, so 32768 steps always suffice. -/
def sendColors (m : RGBpixelmatrix) : Option (List Event) :=
  (sendColorsLoop m 32768 0 [Event.cli]).map (fun trace => trace ++ [Event.sei])

/-! ## Hardware state -/

/-- The part of the controller state the events act on: the global interrupt enable flag
(bit I of `SREG`) and the level of output pin 7 of port D. -/
structure Hardware where
  interruptsEnabled : Bool
  pin7 : Bool
deriving DecidableEq

/-- Effect of one event on the hardware: `cli` clears the interrupt flag, `sei` sets it,
the pin writes drive the pin, `nop` changes nothing. -/
def execEvent (hw : Hardware) : Event → Hardware
  | Event.cli => { hw with interruptsEnabled := false }
  | Event.sei => { hw with interruptsEnabled := true }
  | Event.pinHigh => { hw with pin7 := true }
  | Event.pinLow => { hw with pin7 := false }
  | Event.nop => hw

/-- Effect of a trace of events, in order. -/
def execTrace (hw : Hardware) (trace : List Event) : Hardware :=
  trace.foldl execEvent hw

/-- A call `m.sendColors()` made with the hardware in state `hw`: the object and the
hardware after the call.  The method assigns no data member and writes no buffer byte. -/
def sendColorsCall (m : RGBpixelmatrix) (hw : Hardware) :
    Option (RGBpixelmatrix × Hardware) :=
  (sendColors m).map (fun trace => (m, execTrace hw trace))

/-! ## Colour conversion -/

/-- The floating-point arithmetic the source takes from the compiler and from
`Arduino.h`, neither of which is part of the repository.  A finite `float` is the
rational number it denotes; `rnd` rounds the exact result of an operation to a `float`
(`float` and `double` are the same 32-bit format on the target, so every operation
rounds once); `round` is the `round` of the platform, from `float` to `long`.
Infinities and NaN are outside the model. -/
structure FloatEnv where
  rnd : ℚ → ℚ
  round : ℚ → Int

/-- Conversion `(int)x` of a `float`: the fractional part is discarded, the result kept
in 16 bits. -/
def floatToInt (x : ℚ) : Int :=
  toInt16 (if 0 ≤ x then ⌊x⌋ else ⌈x⌉)

/-- The local `s` of `HSVtoRGB`: `(float)S/255.0`. -/
def hsvS (env : FloatEnv) (S : ℚ) : ℚ := env.rnd (S / 255)

/-- The local `v` of `HSVtoRGB`: `(float)V/255.0`. -/
def hsvV (env : FloatEnv) (V : ℚ) : ℚ := env.rnd (V / 255)

/-- The local `i` of `HSVtoRGB`: `(int)((float)H/42.5) % 6`, the remainder taking the
sign of the dividend. -/
def hsvI (env : FloatEnv) (H : ℚ) : Int :=
  Int.tmod (floatToInt (env.rnd (H / (85 / 2)))) 6

/-- The local `f` of `HSVtoRGB`: `(float)H/42.5 - (int)((float)H/42.5)`. -/
def hsvF (env : FloatEnv) (H : ℚ) : ℚ :=
  env.rnd (env.rnd (H / (85 / 2)) - ((floatToInt (env.rnd (H / (85 / 2))) : Int) : ℚ))

/-- The local `p` of `HSVtoRGB`: `v * (1.0 - s)`. -/
def hsvP (env : FloatEnv) (s v : ℚ) : ℚ := env.rnd (v * env.rnd (1 - s))

/-- The local `q` of `HSVtoRGB`: `v * (1.0 - (s * f))`. -/
def hsvQ (env : FloatEnv) (s v f : ℚ) : ℚ := env.rnd (v * env.rnd (1 - env.rnd (s * f)))

/-- The local `t` of `HSVtoRGB`: `v * (1.0 - (s * (1.0 - f)))`. -/
def hsvT (env : FloatEnv) (s v f : ℚ) : ℚ :=
  env.rnd (v * env.rnd (1 - env.rnd (s * env.rnd (1 - f))))

/-- The channel value `round(255*x)` stored in a `uint8_t` member of the result. -/
def channel (env : FloatEnv) (x : ℚ) : Nat := toUInt8 (env.round (env.rnd (255 * x)))

/-- The method `RGB HSVtoRGB(float H, float S, float V)`. -/
def HSVtoRGB (env : FloatEnv) (H S V : ℚ) : RGB :=
  let s := hsvS env S
  let v := hsvV env V
  if s = 0 then
    { r := channel env v, g := channel env v, b := channel env v }
  else
    let i := hsvI env H
    let f := hsvF env H
    let p := hsvP env s v
    let q := hsvQ env s v f
    let t := hsvT env s v f
    if i = 0 then { r := channel env v, g := channel env t, b := channel env p }
    else if i = 1 then { r := channel env q, g := channel env v, b := channel env p }
    else if i = 2 then { r := channel env p, g := channel env v, b := channel env t }
    else if i = 3 then { r := channel env p, g := channel env q, b := channel env v }
    else if i = 4 then { r := channel env t, g := channel env p, b := channel env v }
    else { r := channel env v, g := channel env p, b := channel env q }

/-! ## Specification-side definitions -/

/-- The invariant of a matrix of `width` columns and `height` lines: the members hold the
width and the row stride, the buffer has `width*height*3` cells, every cell is a byte. -/
def Valid (m : RGBpixelmatrix) (width height : Nat) : Prop :=
  m._width = width ∧ m._height = height * 3 ∧
    m._colorarray.length = width * height * 3 ∧ ∀ x ∈ m._colorarray, x < 256

instance (m : RGBpixelmatrix) (width height : Nat) : Decidable (Valid m width height) := by
  unfold Valid; infer_instance

/-- The byte offset of pixel `(column, line)` as the specification gives it: the column
base plus the line offset, counted from the other end in odd columns. -/
def specOffset (height column line : Nat) : Nat :=
  column * height * 3 + (if column % 2 = 0 then line * 3 else height * 3 - line * 3 - 3)

/-- The buffer with the bytes g, r, b of `color` at positions `off`, `off+1`, `off+2`. -/
def written (buf : List Nat) (off : Nat) (color : RGB) : List Nat :=
  ((buf.set off (color.g % 256)).set (off + 1) (color.r % 256)).set (off + 2) (color.b % 256)

/-- Number of `nop` cycles the pin stays high in a pulse: 15 for a "1", 5 for a "0". -/
def highCycles (bit : Bool) : Nat := if bit then 15 else 5

/-- One pulse: pin high, the delay, pin low. -/
def pulse (bit : Bool) : List Event :=
  Event.pinHigh :: (List.replicate (highCycles bit) Event.nop ++ [Event.pinLow])

/-- The pulses of one byte, most significant bit first. -/
def bytePulses (d : Nat) : List Event :=
  (List.range 8).flatMap (fun k => pulse (d.testBit (7 - k)))

/-- Receiver side: reads a trace of pulses back into a number, most significant bit
first.  The second argument is the count of `nop` seen in the pulse under way. -/
def decodeAux : List Event → Option Nat → Nat → Option Nat
  | [], none, acc => some acc
  | [], some _, _ => none
  | Event.pinHigh :: t, none, acc => decodeAux t (some 0) acc
  | Event.nop :: t, some n, acc => decodeAux t (some (n + 1)) acc
  | Event.pinLow :: t, some n, acc =>
    if n = highCycles true then decodeAux t none (2 * acc + 1)
    else if n = highCycles false then decodeAux t none (2 * acc)
    else none
  | _ :: _, _, _ => none

/-- Decoding of a whole trace of pulses. -/
def decodePulses (t : List Event) : Option Nat := decodeAux t none 0

/-- The position of pixel `(column, line)` along the wire, counted in pixels: columns
follow each other, even columns run upwards and odd columns downwards. -/
def slot (height column line : Nat) : Nat :=
  column * height + (if column % 2 = 0 then line else height - 1 - line)

/-- The properties of the target arithmetic used below; IEEE 754 binary32 with rounding
to nearest has them.  Integers up to `2^24` are floats, so an operation with such a
result is exact; the result of an operation in the range `1/256 .. 256` is off by at
most the relative error `2^-24`; `round` returns the nearest integer when the argument is
within a quarter of it (for integers up to `2^16`, far from the range where the `float`
format has no room for halves). -/
def FloatEnv.Binary32 (env : FloatEnv) : Prop :=
  (∀ n : Int, |n| ≤ 2 ^ 24 → env.rnd (n : ℚ) = (n : ℚ)) ∧
  (∀ x : ℚ, 1 / 256 ≤ x → x ≤ 256 → |env.rnd x - x| ≤ x / 2 ^ 24) ∧
  (∀ (x : ℚ) (n : Int), |n| ≤ 2 ^ 16 → |x - (n : ℚ)| ≤ 1 / 4 → env.round x = n)

/-- Exact arithmetic, with `round` taking halves upwards. -/
def exactEnv : FloatEnv where
  rnd := fun x => x
  round := fun x => ⌊x + 1 / 2⌋

end RGBpixelmatrix

/-- A pixel whose three channels are 8-bit values. -/
def RGB.inRange (P : RGB) : Prop := P.r < 256 ∧ P.g < 256 ∧ P.b < 256

instance (P : RGB) : Decidable P.inRange := by
  unfold RGB.inRange; infer_instance

/-! ## Integer conversion lemmas -/

theorem toUInt8_natCast (n : Nat) : toUInt8 (n : Int) = n % 256 := by
  unfold toUInt8; omega

theorem toUInt8_mul_three (l : Nat) : toUInt8 ((l : Int) * 3) = (l * 3) % 256 := by
  unfold toUInt8; omega

theorem toUInt8_sub_three (s x : Nat) (h : x + 3 ≤ s) :
    toUInt8 ((s : Int) - (x : Int) - 3) = (s - x - 3) % 256 := by
  unfold toUInt8; omega

theorem toUInt8_sub_mul_three (s l : Nat) (h : l * 3 + 3 ≤ s) :
    toUInt8 ((s : Int) - (l : Int) * 3 - 3) = (s - l * 3 - 3) % 256 := by
  unfold toUInt8; omega

theorem store_eq_some (buf : List Nat) (i v : Nat) (h : i < buf.length) :
    store buf i v = some (buf.set i (v % 256)) := if_pos h

namespace RGBpixelmatrix

/-! ## Offsets -/

theorem setColorOffset_eq (m : RGBpixelmatrix) (width height column line : Nat)
    (hv : Valid m width height) (hw : width ≤ 85) (hh : height ≤ 85)
    (hc : column < width) (hl : line < height) :
    setColorOffset m column line = specOffset height column line := by
  obtain ⟨h1, h2, -, -⟩ := hv
  have hp : column * height ≤ 84 * 85 := Nat.mul_le_mul (by omega) hh
  have e : column * (height * 3) = column * height * 3 := by ring
  unfold setColorOffset specOffset
  simp only [h2, toUInt8_mul_three]
  rw [Nat.mod_eq_of_lt (show column < 256 by omega), Nat.mod_eq_of_lt (show line < 256 by omega),
    Nat.mod_eq_of_lt (show line * 3 < 256 by omega), e]
  generalize column * height = p at hp ⊢
  by_cases hpar : column % 2 = 0
  · simp only [hpar, ne_eq, not_true_eq_false, if_false, if_true]
    omega
  · simp only [hpar, ne_eq, not_false_eq_true, if_false, if_true]
    rw [toUInt8_sub_three _ _ (by omega),
      Nat.mod_eq_of_lt (show height * 3 - line * 3 - 3 < 256 by omega),
      Nat.mod_eq_of_lt (show p * 3 < 65536 by omega), Nat.mod_eq_of_lt (by omega)]

theorem getColorOffset_eq (m : RGBpixelmatrix) (width height column line : Nat)
    (hv : Valid m width height) (hw : width ≤ 85) (hh : height ≤ 85)
    (hc : column < width) (hl : line < height) :
    getColorOffset m column line = specOffset height column line := by
  obtain ⟨h1, h2, -, -⟩ := hv
  have hp : column * height ≤ 84 * 85 := Nat.mul_le_mul (by omega) hh
  have e : column * (height * 3) = column * height * 3 := by ring
  unfold getColorOffset specOffset
  simp only [h2, toUInt8_mul_three]
  rw [Nat.mod_eq_of_lt (show column < 256 by omega), Nat.mod_eq_of_lt (show line < 256 by omega),
    Nat.mod_eq_of_lt (show line * 3 < 256 by omega), e]
  generalize column * height = p at hp ⊢
  by_cases hpar : column % 2 = 0
  · simp only [hpar, ne_eq, not_true_eq_false, if_false, if_true]
    omega
  · simp only [hpar, ne_eq, not_false_eq_true, if_false, if_true]
    rw [toUInt8_sub_mul_three _ _ (by omega),
      Nat.mod_eq_of_lt (show height * 3 - line * 3 - 3 < 256 by omega),
      Nat.mod_eq_of_lt (show p * 3 < 65536 by omega), Nat.mod_eq_of_lt (by omega)]

theorem specOffset_lt (width height column line : Nat)
    (hc : column < width) (hl : line < height) :
    specOffset height column line + 2 < width * height * 3 := by
  have hp : (column + 1) * height ≤ width * height := Nat.mul_le_mul_right _ (by omega)
  unfold specOffset
  rw [Nat.add_mul] at hp
  generalize column * height = p at hp ⊢
  generalize width * height = q at hp ⊢
  split <;> omega


theorem length_written (buf : List Nat) (off : Nat) (color : RGB) :
    (written buf off color).length = buf.length := by
  simp [written]

theorem getElem?_written_zero (buf : List Nat) (off : Nat) (color : RGB)
    (h : off + 2 < buf.length) : (written buf off color)[off]? = some (color.g % 256) := by
  unfold written
  rw [List.getElem?_set_ne (by omega), List.getElem?_set_ne (by omega),
    List.getElem?_set_self (by omega)]

theorem getElem?_written_one (buf : List Nat) (off : Nat) (color : RGB)
    (h : off + 2 < buf.length) : (written buf off color)[off + 1]? = some (color.r % 256) := by
  unfold written
  rw [List.getElem?_set_ne (by omega), List.getElem?_set_self (by simp; omega)]

theorem getElem?_written_two (buf : List Nat) (off : Nat) (color : RGB)
    (h : off + 2 < buf.length) : (written buf off color)[off + 2]? = some (color.b % 256) := by
  unfold written
  rw [List.getElem?_set_self (by simp; omega)]

theorem getElem?_written_other (buf : List Nat) (off : Nat) (color : RGB) (i : Nat)
    (h0 : i ≠ off) (h1 : i ≠ off + 1) (h2 : i ≠ off + 2) :
    (written buf off color)[i]? = buf[i]? := by
  unfold written
  rw [List.getElem?_set_ne (by omega), List.getElem?_set_ne (by omega),
    List.getElem?_set_ne (by omega)]

theorem setColor_of_offset (m : RGBpixelmatrix) (column line : Nat) (color : RGB) (off : Nat)
    (hoff : setColorOffset m column line = off) (hlen : off + 2 < m._colorarray.length)
    (hsmall : off + 2 < 65536) :
    setColor m column line color
      = some { m with _colorarray := written m._colorarray off color } := by
  unfold setColor written
  simp only [hoff]
  rw [Nat.mod_eq_of_lt (show off + 1 < 65536 by omega), Nat.mod_eq_of_lt hsmall,
    store_eq_some _ _ _ (by omega)]
  simp only [Option.bind_eq_bind, Option.some_bind]
  rw [store_eq_some _ _ _ (by simp; omega)]
  simp only [Option.some_bind]
  rw [store_eq_some _ _ _ (by simp; omega)]
  rfl

theorem getColor_of_offset (m : RGBpixelmatrix) (column line : Nat) (off g r b : Nat)
    (hoff : getColorOffset m column line = off) (hsmall : off + 2 < 65536)
    (hg : m._colorarray[off]? = some g) (hr : m._colorarray[off + 1]? = some r)
    (hb : m._colorarray[off + 2]? = some b) :
    getColor m column line = some { r := r, g := g, b := b } := by
  unfold getColor load
  simp only [hoff]
  rw [Nat.mod_eq_of_lt (show off + 1 < 65536 by omega), Nat.mod_eq_of_lt hsmall, hg, hr, hb]
  rfl

theorem buffer_size_le (width height : Nat) (hw : width ≤ 85) (hh : height ≤ 85) :
    width * height * 3 ≤ 21675 := by
  have := Nat.mul_le_mul hw hh
  omega


theorem ctor_valid (width height : Nat) (heap : Nat → Nat) (hw : width ≤ 85)
    (hh : height ≤ 85) : Valid (ctor width height heap) width height := by
  have hs := buffer_size_le width height hw hh
  have e : width * (height * 3) = width * height * 3 := by ring
  unfold Valid ctor
  simp only [toUInt8_mul_three, List.length_map, List.length_range, List.mem_map, List.mem_range]
  rw [Nat.mod_eq_of_lt (show width < 256 by omega), Nat.mod_eq_of_lt (show height < 256 by omega),
    Nat.mod_eq_of_lt (show height * 3 < 256 by omega), e, Nat.mod_eq_of_lt (by omega)]
  refine ⟨rfl, rfl, rfl, ?_⟩
  rintro x ⟨i, -, rfl⟩
  exact Nat.mod_lt _ (by decide)

theorem written_bytes (buf : List Nat) (off : Nat) (color : RGB)
    (h : ∀ x ∈ buf, x < 256) : ∀ x ∈ written buf off color, x < 256 := by
  intro x hx
  unfold written at hx
  rcases List.mem_or_eq_of_mem_set hx with hx | rfl
  · rcases List.mem_or_eq_of_mem_set hx with hx | rfl
    · rcases List.mem_or_eq_of_mem_set hx with hx | rfl
      · exact h x hx
      · exact Nat.mod_lt _ (by decide)
    · exact Nat.mod_lt _ (by decide)
  · exact Nat.mod_lt _ (by decide)

theorem setColor_eq_written (m : RGBpixelmatrix) (width height column line : Nat) (color : RGB)
    (hv : Valid m width height) (hw : width ≤ 85) (hh : height ≤ 85)
    (hc : column < width) (hl : line < height) :
    setColor m column line color
      = some { m with
          _colorarray := written m._colorarray (specOffset height column line) color } := by
  have hs := buffer_size_le width height hw hh
  have hlt := specOffset_lt width height column line hc hl
  exact setColor_of_offset m column line color _
    (setColorOffset_eq m width height column line hv hw hh hc hl)
    (by rw [hv.2.2.1]; exact hlt) (by omega)

theorem setColor_valid (m : RGBpixelmatrix) (width height column line : Nat) (color : RGB)
    (hv : Valid m width height) (hw : width ≤ 85) (hh : height ≤ 85)
    (hc : column < width) (hl : line < height) :
    ∃ m', setColor m column line color = some m' ∧ Valid m' width height := by
  refine ⟨_, setColor_eq_written m width height column line color hv hw hh hc hl, ?_⟩
  exact ⟨hv.1, hv.2.1, by rw [length_written]; exact hv.2.2.1,
    written_bytes _ _ _ hv.2.2.2⟩

/-- C1: in a matrix of width and height at most 85, for every column below the width (even
or odd), every line below the height and every pixel `P` of three 8-bit channels,
`setColor column line P` succeeds and `getColor column line` on the resulting matrix
returns exactly `P`. -/
theorem getColor_setColor (m : RGBpixelmatrix) (width height column line : Nat) (P : RGB)
    (hv : Valid m width height) (hw : width ≤ 85) (hh : height ≤ 85)
    (hc : column < width) (hl : line < height) (hP : P.inRange) :
    ∃ m', setColor m column line P = some m' ∧ getColor m' column line = some P := by
  have hs := buffer_size_le width height hw hh
  have hlt := specOffset_lt width height column line hc hl
  have hlen : specOffset height column line + 2 < m._colorarray.length := by
    rw [hv.2.2.1]; exact hlt
  refine ⟨_, setColor_eq_written m width height column line P hv hw hh hc hl, ?_⟩
  have hget := getColor_of_offset
    { m with _colorarray := written m._colorarray (specOffset height column line) P }
    column line (specOffset height column line) (P.g % 256) (P.r % 256) (P.b % 256)
    (getColorOffset_eq m width height column line hv hw hh hc hl) (by omega)
    (getElem?_written_zero _ _ _ hlen) (getElem?_written_one _ _ _ hlen)
    (getElem?_written_two _ _ _ hlen)
  rw [hget, Nat.mod_eq_of_lt hP.1, Nat.mod_eq_of_lt hP.2.1, Nat.mod_eq_of_lt hP.2.2]

/-- Witness for C1: an odd column of a 4x3 matrix. -/
theorem getColor_setColor_witness :
    ∃ m', setColor (ctor 4 3 (fun _ => 0)) 1 2 { r := 10, g := 20, b := 30 } = some m' ∧
      getColor m' 1 2 = some { r := 10, g := 20, b := 30 } :=
  getColor_setColor (ctor 4 3 (fun _ => 0)) 4 3 1 2 { r := 10, g := 20, b := 30 }
    (by decide) (by decide) (by decide) (by decide) (by decide) (by decide)

theorem setColor_writes_at (m : RGBpixelmatrix) (width height column line : Nat) (color : RGB)
    (hv : Valid m width height) (hw : width ≤ 85) (hh : height ≤ 85)
    (hc : column < width) (hl : line < height) (hP : color.inRange) (off : Nat)
    (hoff : specOffset height column line = off) :
    setColorOffset m column line = off ∧
    ∃ m', setColor m column line color = some m' ∧
      m'._colorarray[off]? = some color.g ∧
      m'._colorarray[off + 1]? = some color.r ∧
      m'._colorarray[off + 2]? = some color.b ∧
      (∀ i, i ≠ off → i ≠ off + 1 → i ≠ off + 2 → m'._colorarray[i]? = m._colorarray[i]?) ∧
      m'._width = m._width ∧ m'._height = m._height := by
  subst hoff
  have hlt := specOffset_lt width height column line hc hl
  have hlen : specOffset height column line + 2 < m._colorarray.length := by
    rw [hv.2.2.1]; exact hlt
  refine ⟨setColorOffset_eq m width height column line hv hw hh hc hl, _,
    setColor_eq_written m width height column line color hv hw hh hc hl, ?_, ?_, ?_, ?_, rfl, rfl⟩
  · show (written _ _ _)[_]? = _
    rw [getElem?_written_zero _ _ _ hlen, Nat.mod_eq_of_lt hP.2.1]
  · show (written _ _ _)[_]? = _
    rw [getElem?_written_one _ _ _ hlen, Nat.mod_eq_of_lt hP.1]
  · show (written _ _ _)[_]? = _
    rw [getElem?_written_two _ _ _ hlen, Nat.mod_eq_of_lt hP.2.2]
  · intro i h0 h1 h2
    exact getElem?_written_other _ _ _ i h0 h1 h2

/-- C2: in a matrix of width and height at most 85, for an even column below the width, a
line below the height and a pixel of 8-bit channels, `setColor` computes the offset
`column*height*3 + line*3`, succeeds, and leaves g, r, b (in that order) in the buffer
bytes at offset, offset+1 and offset+2; every other byte and both dimensions are
unchanged. -/
theorem setColor_even_column (m : RGBpixelmatrix) (width height column line : Nat)
    (color : RGB) (hv : Valid m width height) (hw : width ≤ 85) (hh : height ≤ 85)
    (hc : column < width) (hl : line < height) (heven : column % 2 = 0)
    (hP : color.inRange) :
    setColorOffset m column line = column * height * 3 + line * 3 ∧
    ∃ m', setColor m column line color = some m' ∧
      m'._colorarray[column * height * 3 + line * 3]? = some color.g ∧
      m'._colorarray[column * height * 3 + line * 3 + 1]? = some color.r ∧
      m'._colorarray[column * height * 3 + line * 3 + 2]? = some color.b ∧
      (∀ i, i ≠ column * height * 3 + line * 3 → i ≠ column * height * 3 + line * 3 + 1 →
        i ≠ column * height * 3 + line * 3 + 2 → m'._colorarray[i]? = m._colorarray[i]?) ∧
      m'._width = m._width ∧ m'._height = m._height :=
  setColor_writes_at m width height column line color hv hw hh hc hl hP _
    (by unfold specOffset; rw [if_pos heven])

/-- Witness for C2: the scenario of the specification, pixel (0,0) of a 4x3 matrix set to
r=10, g=20, b=30 leaves 20, 10, 30 in the bytes 0, 1, 2. -/
theorem setColor_even_column_witness :
    setColorOffset (ctor 4 3 (fun _ => 0)) 0 0 = 0 ∧
    ∃ m', setColor (ctor 4 3 (fun _ => 0)) 0 0 { r := 10, g := 20, b := 30 } = some m' ∧
      m'._colorarray[0]? = some 20 ∧ m'._colorarray[1]? = some 10 ∧
      m'._colorarray[2]? = some 30 ∧
      (∀ i, i ≠ 0 → i ≠ 1 → i ≠ 2 →
        m'._colorarray[i]? = (ctor 4 3 (fun _ => 0))._colorarray[i]?) ∧
      m'._width = 4 ∧ m'._height = 9 :=
  setColor_even_column (ctor 4 3 (fun _ => 0)) 4 3 0 0 { r := 10, g := 20, b := 30 }
    (by decide) (by decide) (by decide) (by decide) (by decide) (by decide) (by decide)

/-- C3: in a matrix of width and height at most 85, for an odd column below the width, a
line below the height and a pixel of 8-bit channels, `setColor` computes the offset
`column*height*3 + (height*3 - line*3 - 3)`, succeeds, and leaves g, r, b (in that order,
as in even columns) at offset, offset+1 and offset+2, every other byte and both
dimensions unchanged; line 0 is written to the last three bytes of the column's range
`[column*height*3, (column+1)*height*3)` and line `height-1` to the first three. -/
theorem setColor_odd_column (m : RGBpixelmatrix) (width height column line : Nat)
    (color : RGB) (hv : Valid m width height) (hw : width ≤ 85) (hh : height ≤ 85)
    (hc : column < width) (hl : line < height) (hodd : column % 2 = 1)
    (hP : color.inRange) :
    (setColorOffset m column line = column * height * 3 + (height * 3 - line * 3 - 3) ∧
    ∃ m', setColor m column line color = some m' ∧
      m'._colorarray[column * height * 3 + (height * 3 - line * 3 - 3)]? = some color.g ∧
      m'._colorarray[column * height * 3 + (height * 3 - line * 3 - 3) + 1]? = some color.r ∧
      m'._colorarray[column * height * 3 + (height * 3 - line * 3 - 3) + 2]? = some color.b ∧
      (∀ i, i ≠ column * height * 3 + (height * 3 - line * 3 - 3) →
        i ≠ column * height * 3 + (height * 3 - line * 3 - 3) + 1 →
        i ≠ column * height * 3 + (height * 3 - line * 3 - 3) + 2 →
        m'._colorarray[i]? = m._colorarray[i]?) ∧
      m'._width = m._width ∧ m'._height = m._height) ∧
    setColorOffset m column 0 + 3 = (column + 1) * height * 3 ∧
    setColorOffset m column (height - 1) = column * height * 3 := by
  have hspec : ∀ l, specOffset height column l
      = column * height * 3 + (height * 3 - l * 3 - 3) := by
    intro l
    unfold specOffset
    rw [if_neg (by omega)]
  refine ⟨setColor_writes_at m width height column line color hv hw hh hc hl hP _ (hspec line),
    ?_, ?_⟩
  · rw [setColorOffset_eq m width height column 0 hv hw hh hc (by omega), hspec, Nat.add_mul]
    omega
  · rw [setColorOffset_eq m width height column (height - 1) hv hw hh hc (by omega), hspec]
    omega

/-- Witness for C3: the scenario of the specification, pixel (1,0) of a 4x3 matrix is
written to the bytes 15, 16, 17. -/
theorem setColor_odd_column_witness :
    (setColorOffset (ctor 4 3 (fun _ => 0)) 1 0 = 15 ∧
    ∃ m', setColor (ctor 4 3 (fun _ => 0)) 1 0 { r := 10, g := 20, b := 30 } = some m' ∧
      m'._colorarray[15]? = some 20 ∧ m'._colorarray[16]? = some 10 ∧
      m'._colorarray[17]? = some 30 ∧
      (∀ i, i ≠ 15 → i ≠ 16 → i ≠ 17 →
        m'._colorarray[i]? = (ctor 4 3 (fun _ => 0))._colorarray[i]?) ∧
      m'._width = 4 ∧ m'._height = 9) ∧
    setColorOffset (ctor 4 3 (fun _ => 0)) 1 0 + 3 = 18 ∧
    setColorOffset (ctor 4 3 (fun _ => 0)) 1 2 = 9 :=
  setColor_odd_column (ctor 4 3 (fun _ => 0)) 4 3 1 0 { r := 10, g := 20, b := 30 }
    (by decide) (by decide) (by decide) (by decide) (by decide) (by decide) (by decide)

/-! ## Transmission -/

theorem branch_eq_pulse (d i : Nat) :
    (if d &&& 2 ^ i ≠ 0 then writeOne else writeZero) = pulse (d.testBit i) := by
  rw [Nat.and_two_pow]
  cases d.testBit i
  · simp only [Bool.toNat_false, Nat.zero_mul, ne_eq, not_true_eq_false, if_false]
    rfl
  · have : (2 : Nat) ^ i ≠ 0 := by positivity
    simp only [Bool.toNat_true, Nat.one_mul, ne_eq, this, not_false_eq_true, if_true]
    rfl

theorem bytePulses_unfold (d : Nat) :
    bytePulses d = pulse (d.testBit 7) ++ (pulse (d.testBit 6) ++ (pulse (d.testBit 5) ++
      (pulse (d.testBit 4) ++ (pulse (d.testBit 3) ++ (pulse (d.testBit 2) ++
      (pulse (d.testBit 1) ++ (pulse (d.testBit 0) ++ []))))))) := rfl

theorem sendByte_unfold (d : Nat) :
    sendByte d = (if d % 256 &&& 128 ≠ 0 then writeOne else writeZero) ++
      ((if d % 256 &&& 64 ≠ 0 then writeOne else writeZero) ++
      ((if d % 256 &&& 32 ≠ 0 then writeOne else writeZero) ++
      ((if d % 256 &&& 16 ≠ 0 then writeOne else writeZero) ++
      ((if d % 256 &&& 8 ≠ 0 then writeOne else writeZero) ++
      ((if d % 256 &&& 4 ≠ 0 then writeOne else writeZero) ++
      ((if d % 256 &&& 2 ≠ 0 then writeOne else writeZero) ++
      ((if d % 256 &&& 1 ≠ 0 then writeOne else writeZero) ++ []))))))) := rfl

theorem sendByte_eq_bytePulses_aux (d : Nat) (hd : d < 256) : sendByte d = bytePulses d := by
  have h7 : (if d &&& 128 ≠ 0 then writeOne else writeZero) = _ := branch_eq_pulse d 7
  have h6 : (if d &&& 64 ≠ 0 then writeOne else writeZero) = _ := branch_eq_pulse d 6
  have h5 : (if d &&& 32 ≠ 0 then writeOne else writeZero) = _ := branch_eq_pulse d 5
  have h4 : (if d &&& 16 ≠ 0 then writeOne else writeZero) = _ := branch_eq_pulse d 4
  have h3 : (if d &&& 8 ≠ 0 then writeOne else writeZero) = _ := branch_eq_pulse d 3
  have h2 : (if d &&& 4 ≠ 0 then writeOne else writeZero) = _ := branch_eq_pulse d 2
  have h1 : (if d &&& 2 ≠ 0 then writeOne else writeZero) = _ := branch_eq_pulse d 1
  have h0 : (if d &&& 1 ≠ 0 then writeOne else writeZero) = _ := branch_eq_pulse d 0
  rw [sendByte_unfold, bytePulses_unfold, Nat.mod_eq_of_lt hd, h7, h6, h5, h4, h3, h2, h1, h0]

theorem decodeAux_pulse (bit : Bool) (t : List Event) (acc : Nat) :
    decodeAux (pulse bit ++ t) none acc = decodeAux t none (2 * acc + bit.toNat) := by
  cases bit <;> rfl

theorem decodeAux_nil (acc : Nat) : decodeAux [] none acc = some acc := rfl

theorem decodePulses_sendByte_aux (d : Nat) (hd : d < 256) :
    decodePulses (sendByte d) = some d := by
  unfold decodePulses
  rw [sendByte_eq_bytePulses_aux d hd]
  simp only [bytePulses_unfold, decodeAux_pulse, decodeAux_nil, Nat.toNat_testBit,
    Option.some.injEq]
  simp only [Nat.pow_succ, Nat.pow_zero, ← Nat.div_div_eq_div_mul, Nat.one_mul, Nat.div_one]
  omega

theorem sendColorsLoop_succ (m : RGBpixelmatrix) (fuel index : Nat) (trace : List Event) :
    sendColorsLoop m (fuel + 1) index trace =
      if (index : Int) < toInt16 ((m._width : Int) * m._height) then
        match load m._colorarray index with
        | none => none
        | some data => sendColorsLoop m fuel (index + 1) (trace ++ sendByte data)
      else
        some trace := rfl

theorem sendColorsLoop_eq (m : RGBpixelmatrix)
    (hb : toInt16 ((m._width : Int) * m._height) = (m._colorarray.length : Int)) :
    ∀ (fuel index : Nat) (trace : List Event), index ≤ m._colorarray.length →
      m._colorarray.length - index < fuel →
      sendColorsLoop m fuel index trace
        = some (trace ++ (m._colorarray.drop index).flatMap sendByte) := by
  intro fuel
  induction fuel with
  | zero => intro index trace _ h; omega
  | succ fuel ih =>
    intro index trace hle hfuel
    rw [sendColorsLoop_succ, hb]
    by_cases hlt : index < m._colorarray.length
    · rw [if_pos (by exact_mod_cast hlt)]
      have hload : load m._colorarray index = some (m._colorarray[index]) := by
        unfold load
        exact List.getElem?_eq_getElem hlt
      rw [hload]
      simp only
      rw [ih (index + 1) _ (by omega) (by omega), List.drop_eq_getElem_cons hlt,
        List.flatMap_cons, List.append_assoc]
    · rw [if_neg (by intro h; exact hlt (by exact_mod_cast h)),
        List.drop_eq_nil_of_le (by omega), List.flatMap_nil, List.append_nil]

theorem toInt16_bound (m : RGBpixelmatrix) (width height : Nat)
    (hv : Valid m width height) (hw : width ≤ 85) (hh : height ≤ 85) :
    toInt16 ((m._width : Int) * m._height) = (m._colorarray.length : Int) := by
  have hs := buffer_size_le width height hw hh
  have e : m._width * m._height = m._colorarray.length := by
    rw [hv.1, hv.2.1, hv.2.2.1]; ring
  rw [← Nat.cast_mul, e]
  rw [hv.2.2.1]
  unfold toInt16
  omega

theorem flatMap_sendByte_eq (buf : List Nat) (h : ∀ x ∈ buf, x < 256) :
    buf.flatMap sendByte = buf.flatMap bytePulses := by
  induction buf with
  | nil => rfl
  | cons d t ih =>
    rw [List.flatMap_cons, List.flatMap_cons,
      sendByte_eq_bytePulses_aux d (h d (List.mem_cons_self d t)),
      ih (fun x hx => h x (List.mem_cons_of_mem d hx))]

theorem pins_of_mem_pulse (e : Event) (bit : Bool) (h : e ∈ pulse bit) :
    e ≠ Event.cli ∧ e ≠ Event.sei := by
  cases bit <;> revert e <;> decide

theorem pins_of_mem_flatMap (buf : List Nat) (e : Event) (h : e ∈ buf.flatMap bytePulses) :
    e ≠ Event.cli ∧ e ≠ Event.sei := by
  obtain ⟨d, -, hd⟩ := List.mem_flatMap.mp h
  obtain ⟨k, -, hk⟩ := List.mem_flatMap.mp hd
  exact pins_of_mem_pulse e _ hk

theorem count_pinHigh_pulse (bit : Bool) : (pulse bit).count Event.pinHigh = 1 := by
  cases bit <;> decide

theorem count_pinHigh_bytePulses (d : Nat) : (bytePulses d).count Event.pinHigh = 8 := by
  simp only [bytePulses_unfold, List.count_append, count_pinHigh_pulse, List.count_nil]

theorem count_pinHigh_flatMap (buf : List Nat) :
    (buf.flatMap bytePulses).count Event.pinHigh = 8 * buf.length := by
  induction buf with
  | nil => rfl
  | cons d t ih =>
    rw [List.flatMap_cons, List.count_append, count_pinHigh_bytePulses, ih, List.length_cons]
    omega

theorem sendColors_eq (m : RGBpixelmatrix) (width height : Nat)
    (hv : Valid m width height) (hw : width ≤ 85) (hh : height ≤ 85) :
    sendColors m
      = some (Event.cli :: (m._colorarray.flatMap bytePulses ++ [Event.sei])) := by
  have hs := buffer_size_le width height hw hh
  have hlen := hv.2.2.1
  unfold sendColors
  rw [sendColorsLoop_eq m (toInt16_bound m width height hv hw hh) 32768 0 [Event.cli]
    (Nat.zero_le _) (by omega), List.drop_zero, flatMap_sendByte_eq _ hv.2.2.2]
  rfl

/-- C4: for a matrix of width and height at most 85 (zero included), `sendColors` returns,
and its trace is one `cli`, then the pulses of the buffer bytes 0, 1, ...,
`width*height*3 - 1` in that order, each byte as its 8 bits most significant first
(`8 * (width*height*3)` pulses in all), then one `sei`; no event between the two is a
`cli` or a `sei`, and for an empty buffer the trace is just `cli`, `sei`. -/
theorem sendColors_trace (m : RGBpixelmatrix) (width height : Nat)
    (hv : Valid m width height) (hw : width ≤ 85) (hh : height ≤ 85) :
    m._colorarray.length = width * height * 3 ∧
    sendColors m
      = some (Event.cli :: (m._colorarray.flatMap bytePulses ++ [Event.sei])) ∧
    (∀ e ∈ m._colorarray.flatMap bytePulses, e ≠ Event.cli ∧ e ≠ Event.sei) ∧
    (m._colorarray.flatMap bytePulses).count Event.pinHigh = 8 * (width * height * 3) ∧
    (width * height * 3 = 0 → sendColors m = some [Event.cli, Event.sei]) := by
  refine ⟨hv.2.2.1, sendColors_eq m width height hv hw hh,
    fun e he => pins_of_mem_flatMap _ e he, ?_, ?_⟩
  · rw [count_pinHigh_flatMap, hv.2.2.1]
  · intro h0
    have hnil : m._colorarray = [] := List.eq_nil_of_length_eq_zero (hv.2.2.1.trans h0)
    rw [sendColors_eq m width height hv hw hh, hnil]
    rfl

/-- Witness for C4: a 1x1 matrix holding the bytes 0, 1, 2, and a matrix of width 0. -/
theorem sendColors_trace_witness :
    ((ctor 1 1 (fun i => i))._colorarray.length = 1 * 1 * 3 ∧
    sendColors (ctor 1 1 (fun i => i))
      = some (Event.cli ::
          ((ctor 1 1 (fun i => i))._colorarray.flatMap bytePulses ++ [Event.sei])) ∧
    (∀ e ∈ (ctor 1 1 (fun i => i))._colorarray.flatMap bytePulses,
      e ≠ Event.cli ∧ e ≠ Event.sei) ∧
    ((ctor 1 1 (fun i => i))._colorarray.flatMap bytePulses).count Event.pinHigh
      = 8 * (1 * 1 * 3) ∧
    (1 * 1 * 3 = 0 → sendColors (ctor 1 1 (fun i => i)) = some [Event.cli, Event.sei])) ∧
    sendColors (ctor 0 85 (fun i => i)) = some [Event.cli, Event.sei] :=
  ⟨sendColors_trace (ctor 1 1 (fun i => i)) 1 1 (by decide) (by decide) (by decide),
    (sendColors_trace (ctor 0 85 (fun i => i)) 0 85 (by decide) (by decide)
      (by decide)).2.2.2.2 (by decide)⟩

/-- C5: for every byte value `d`, `sendByte d` emits the 8 pulses of `d`, each one pin
high, delay, pin low, the k-th being the pulse of bit `7-k`; the branches of the source are
the long pulse (15 `nop`) for a 1 and the short pulse (5 `nop`) for a 0, the long delay
being strictly longer; decoding the pulses most significant bit first gives back `d`, so
two bytes with the same pulses are equal. -/
theorem sendByte_pulses (d : Nat) (hd : d < 256) :
    sendByte d = (List.range 8).flatMap (fun k => pulse (d.testBit (7 - k))) ∧
    (sendByte d).count Event.pinHigh = 8 ∧
    writeOne = pulse true ∧ writeZero = pulse false ∧
    writeOne.count Event.nop = 15 ∧ writeZero.count Event.nop = 5 ∧
    highCycles false < highCycles true ∧
    decodePulses (sendByte d) = some d ∧
    (∀ e, e < 256 → sendByte e = sendByte d → e = d) := by
  refine ⟨sendByte_eq_bytePulses_aux d hd, ?_, rfl, rfl, by decide, by decide, by decide,
    decodePulses_sendByte_aux d hd, ?_⟩
  · rw [sendByte_eq_bytePulses_aux d hd, count_pinHigh_bytePulses]
  · intro e he h
    have h1 := decodePulses_sendByte_aux e he
    rw [h, decodePulses_sendByte_aux d hd] at h1
    exact (Option.some.inj h1).symm

/-- Witness for C5: the byte `0xA5`. -/
theorem sendByte_pulses_witness :
    sendByte 0xA5 = (List.range 8).flatMap (fun k => pulse (Nat.testBit 0xA5 (7 - k))) ∧
    (sendByte 0xA5).count Event.pinHigh = 8 ∧
    writeOne = pulse true ∧ writeZero = pulse false ∧
    writeOne.count Event.nop = 15 ∧ writeZero.count Event.nop = 5 ∧
    highCycles false < highCycles true ∧
    decodePulses (sendByte 0xA5) = some 0xA5 ∧
    (∀ e, e < 256 → sendByte e = sendByte 0xA5 → e = 0xA5) :=
  sendByte_pulses 0xA5 (by decide)

/-! ## Construction, clearing and raw byte access -/

/-- C6: for width and height at most 85 the constructor requests exactly `width*height*3`
bytes and stores the row stride `height*3` (and the width) unchanged: the stride fits in
8 bits and the size in 16 bits, so neither conversion wraps, and the buffer of the
constructed matrix has `width*height*3` bytes. -/
theorem ctor_size (width height : Nat) (heap : Nat → Nat)
    (hw : width ≤ 85) (hh : height ≤ 85) :
    mallocSize width height = width * height * 3 ∧
    (ctor width height heap)._colorarray.length = mallocSize width height ∧
    (ctor width height heap)._height = height * 3 ∧
    (ctor width height heap)._width = width ∧
    height * 3 < 256 ∧ width * (height * 3) < 65536 := by
  have hs := buffer_size_le width height hw hh
  have hv := ctor_valid width height heap hw hh
  have e : width * (height * 3) = width * height * 3 := by ring
  have hm : (ctor width height heap)._colorarray.length = mallocSize width height := by
    unfold ctor mallocSize
    simp only [List.length_map, List.length_range]
  exact ⟨hm.symm.trans hv.2.2.1, hm, hv.2.1, hv.1, by omega, by omega⟩

/-- Witness for C6: a 4x3 matrix has a buffer of 36 bytes. -/
theorem ctor_size_witness :
    mallocSize 4 3 = 36 ∧
    (ctor 4 3 (fun _ => 0))._colorarray.length = mallocSize 4 3 ∧
    (ctor 4 3 (fun _ => 0))._height = 9 ∧
    (ctor 4 3 (fun _ => 0))._width = 4 ∧
    3 * 3 < 256 ∧ 4 * (3 * 3) < 65536 :=
  ctor_size 4 3 (fun _ => 0) (by decide) (by decide)

theorem memset_eq (c : Nat) : ∀ (buf : List Nat) (n : Nat), n ≤ buf.length →
    memset buf c n = some (List.replicate n (c % 256) ++ buf.drop n) := by
  intro buf
  induction buf with
  | nil =>
    intro n hn
    have h0 : n = 0 := by simpa using hn
    subst h0
    rfl
  | cons x rest ih =>
    intro n hn
    cases n with
    | zero => rfl
    | succ n =>
      rw [memset, ih n (by simpa using hn)]
      rfl

theorem clear_eq (m : RGBpixelmatrix) (width height : Nat)
    (hv : Valid m width height) (hw : width ≤ 85) (hh : height ≤ 85) :
    clear m = some { m with _colorarray := List.replicate (width * height * 3) 0 } := by
  have hs := buffer_size_le width height hw hh
  have hn : toUInt16 (toInt16 ((m._width : Int) * m._height)) = m._colorarray.length := by
    rw [toInt16_bound m width height hv hw hh, hv.2.2.1]
    unfold toUInt16
    omega
  unfold clear
  rw [hn, memset_eq 0 _ _ (Nat.le_refl _), List.drop_length, List.append_nil, hv.2.2.1]
  rfl

/-- C7: in a matrix of width and height at most 85, whatever the buffer holds, `clear`
succeeds and afterwards `getByte i` returns 0 for every `i` below `width*height*3`; every
byte of the buffer is zero, and the buffer size and both dimensions are unchanged. -/
theorem clear_zeroes (m : RGBpixelmatrix) (width height : Nat)
    (hv : Valid m width height) (hw : width ≤ 85) (hh : height ≤ 85) :
    ∃ m', clear m = some m' ∧
      (∀ i, i < width * height * 3 → getByte m' i = some 0) ∧
      (∀ i, i < width * height * 3 → m'._colorarray[i]? = some 0) ∧
      m'._colorarray.length = width * height * 3 ∧
      m'._width = m._width ∧ m'._height = m._height := by
  refine ⟨_, clear_eq m width height hv hw hh, ?_, ?_, ?_, rfl, rfl⟩
  · intro i hi
    have hlt : i % 256 < width * height * 3 := lt_of_le_of_lt (Nat.mod_le _ _) hi
    show (List.replicate (width * height * 3) 0)[i % 256]? = some 0
    exact List.getElem?_replicate_of_lt hlt
  · intro i hi
    show (List.replicate (width * height * 3) 0)[i]? = some 0
    exact List.getElem?_replicate_of_lt hi
  · show (List.replicate (width * height * 3) 0).length = _
    exact List.length_replicate _ _

/-- Witness for C7: a 10x10 matrix (300 bytes) whose buffer holds non-zero bytes. -/
theorem clear_zeroes_witness :
    ∃ m', clear (ctor 10 10 (fun i => i + 1)) = some m' ∧
      (∀ i, i < 10 * 10 * 3 → getByte m' i = some 0) ∧
      (∀ i, i < 10 * 10 * 3 → m'._colorarray[i]? = some 0) ∧
      m'._colorarray.length = 10 * 10 * 3 ∧
      m'._width = (ctor 10 10 (fun i => i + 1))._width ∧
      m'._height = (ctor 10 10 (fun i => i + 1))._height :=
  clear_zeroes (ctor 10 10 (fun i => i + 1)) 10 10
    (ctor_valid 10 10 _ (by decide) (by decide)) (by decide) (by decide)

theorem setByte_eq (m : RGBpixelmatrix) (index data : Nat)
    (h : index % 256 < m._colorarray.length) :
    setByte m index data
      = some { m with _colorarray := m._colorarray.set (index % 256) (data % 256) } := by
  unfold setByte
  rw [store_eq_some _ _ _ h, Nat.mod_mod]
  rfl

/-- C8: in a matrix of any width and height (1..85 in particular), for every index `i`
below `width*height*3` and every byte `v`, `setByte i v` succeeds and `getByte i` on the
resulting matrix returns `v`. -/
theorem getByte_setByte (m : RGBpixelmatrix) (width height i v : Nat)
    (hv : Valid m width height) (hi : i < width * height * 3) (hb : v < 256) :
    ∃ m', setByte m i v = some m' ∧ getByte m' i = some v := by
  have hlt : i % 256 < m._colorarray.length := by
    rw [hv.2.2.1]; exact lt_of_le_of_lt (Nat.mod_le _ _) hi
  refine ⟨_, setByte_eq m i v hlt, ?_⟩
  show (m._colorarray.set (i % 256) (v % 256))[i % 256]? = some v
  rw [List.getElem?_set_self hlt, Nat.mod_eq_of_lt hb]

/-- Witness for C8: index 260 of a 10x10 matrix (300 bytes). -/
theorem getByte_setByte_witness :
    ∃ m', setByte (ctor 10 10 (fun _ => 0)) 260 7 = some m' ∧ getByte m' 260 = some 7 :=
  getByte_setByte (ctor 10 10 (fun _ => 0)) 10 10 260 7
    (ctor_valid 10 10 _ (by decide) (by decide)) (by decide) (by decide)

set_option maxRecDepth 20000 in
/-- C9, as stated, fails: in a 10x10 matrix (300 bytes) whose byte `i` holds `i / 2`,
index 260 is below the buffer size, yet `setByte 260 7` leaves position 260 as it was
(130) and overwrites position 4 (which held 2) with 7, and `getByte 260` returns the
byte of position 4, not the byte of position 260. -/
theorem setByte_getByte_index_wraps :
    Valid (ctor 10 10 (fun i => i / 2)) 10 10 ∧ 260 < 10 * 10 * 3 ∧
    (ctor 10 10 (fun i => i / 2))._colorarray[260]? = some 130 ∧
    (ctor 10 10 (fun i => i / 2))._colorarray[4]? = some 2 ∧
    (setByte (ctor 10 10 (fun i => i / 2)) 260 7).map (fun m => m._colorarray[260]?)
      = some (some 130) ∧
    (setByte (ctor 10 10 (fun i => i / 2)) 260 7).map (fun m => m._colorarray[4]?)
      = some (some 7) ∧
    getByte (ctor 10 10 (fun i => i / 2)) 260 = some 2 := by
  refine ⟨ctor_valid 10 10 _ (by decide) (by decide), by decide, ?_, ?_, ?_, ?_, ?_⟩ <;> rfl

/-- C9, amended: the index is an 8-bit parameter, so `setByte` and `getByte` address the
buffer at the flat index reduced modulo 256.  In a matrix of any width and height (1..85
in particular), for every `i` below `width*height*3` and every byte `v`, `setByte i v` succeeds, makes
buffer position `i % 256` equal to `v` and changes no other position (nor the
dimensions), and `getByte i` returns the byte stored at position `i % 256`; for `i`
below 256 that position is `i` itself. -/
theorem setByte_getByte_flat (m : RGBpixelmatrix) (width height i v : Nat)
    (hv : Valid m width height) (hi : i < width * height * 3) (hb : v < 256) :
    (∃ m', setByte m i v = some m' ∧
      m'._colorarray[i % 256]? = some v ∧
      (∀ j, j ≠ i % 256 → m'._colorarray[j]? = m._colorarray[j]?) ∧
      m'._colorarray.length = m._colorarray.length ∧
      m'._width = m._width ∧ m'._height = m._height) ∧
    (∃ x, getByte m i = some x ∧ m._colorarray[i % 256]? = some x) ∧
    (i < 256 → i % 256 = i) := by
  have hlt : i % 256 < m._colorarray.length := by
    rw [hv.2.2.1]; exact lt_of_le_of_lt (Nat.mod_le _ _) hi
  refine ⟨⟨_, setByte_eq m i v hlt, ?_, ?_, ?_, rfl, rfl⟩, ?_, Nat.mod_eq_of_lt⟩
  · show (m._colorarray.set (i % 256) (v % 256))[i % 256]? = some v
    rw [List.getElem?_set_self hlt, Nat.mod_eq_of_lt hb]
  · intro j hj
    show (m._colorarray.set (i % 256) (v % 256))[j]? = _
    exact List.getElem?_set_ne (Ne.symm hj)
  · show (m._colorarray.set (i % 256) (v % 256)).length = _
    exact List.length_set _ _ _
  · exact ⟨m._colorarray[i % 256], List.getElem?_eq_getElem hlt, List.getElem?_eq_getElem hlt⟩

/-- Witness for the amended C9: index 5 of a 4x3 matrix. -/
theorem setByte_getByte_flat_witness :
    (∃ m', setByte (ctor 4 3 (fun i => i)) 5 7 = some m' ∧
      m'._colorarray[5 % 256]? = some 7 ∧
      (∀ j, j ≠ 5 % 256 → m'._colorarray[j]? = (ctor 4 3 (fun i => i))._colorarray[j]?) ∧
      m'._colorarray.length = (ctor 4 3 (fun i => i))._colorarray.length ∧
      m'._width = (ctor 4 3 (fun i => i))._width ∧
      m'._height = (ctor 4 3 (fun i => i))._height) ∧
    (∃ x, getByte (ctor 4 3 (fun i => i)) 5 = some x ∧
      (ctor 4 3 (fun i => i))._colorarray[5 % 256]? = some x) ∧
    (5 < 256 → 5 % 256 = 5) :=
  setByte_getByte_flat (ctor 4 3 (fun i => i)) 4 3 5 7 (by decide) (by decide) (by decide)

/-- C10 fails on the code: for a matrix constructed with width 4 (and height 3),
`getWidth` returns 1, the stored width divided by 3, not the 4 columns passed to the
constructor. -/
theorem getWidth_ctor_four_three :
    (ctor 4 3 (fun _ => 0))._width = 4 ∧ getWidth (ctor 4 3 (fun _ => 0)) = 1 := by
  decide

theorem getWidth_eq_div (width height : Nat) (heap : Nat → Nat) (hw : width ≤ 85)
    (hh : height ≤ 85) : getWidth (ctor width height heap) = width / 3 := by
  have hv := ctor_valid width height heap hw hh
  unfold getWidth
  rw [hv.1]
  omega

/-! ## The height accessor -/

/-- C11 fails on the code: for a matrix constructed with height 3 (and width 4),
`getHeight` returns 9, the stored row stride `3*3`, not the 3 rows passed to the
constructor. -/
theorem getHeight_ctor_four_three :
    (ctor 4 3 (fun _ => 0))._height = 9 ∧ getHeight (ctor 4 3 (fun _ => 0)) = 9 := by
  decide

theorem getHeight_eq_stride (width height : Nat) (heap : Nat → Nat) (hw : width ≤ 85)
    (hh : height ≤ 85) : getHeight (ctor width height heap) = height * 3 :=
  (ctor_valid width height heap hw hh).2.1

/-! ## Read path and write path -/

theorem toUInt8_cast (z : Int) : ((toUInt8 z : Nat) : Int) = z % 256 := by
  unfold toUInt8
  exact Int.toNat_of_nonneg (Int.emod_nonneg z (by decide))

theorem toUInt8_congr (a b : Int) (h : a % 256 = b % 256) : toUInt8 a = toUInt8 b := by
  unfold toUInt8
  rw [h]

/-- C14: the read path and the write path compute the same byte offset for every input:
whatever the column, the line and the stored row stride (in range or not), the value of
`columnindex + lineoffset` in `getColor`, with one 8-bit truncation of the line offset,
equals the one in `setColor`, which truncates `line*3` first and the reversed offset
again. -/
theorem getColorOffset_eq_setColorOffset (m : RGBpixelmatrix) (column line : Nat) :
    getColorOffset m column line = setColorOffset m column line := by
  unfold getColorOffset setColorOffset
  have key : toUInt8 ((m._height : Int) - ((line % 256 : Nat) : Int) * 3 - 3)
      = toUInt8 ((m._height : Int)
          - ((toUInt8 (((line % 256 : Nat) : Int) * 3) : Nat) : Int) - 3) := by
    apply toUInt8_congr
    rw [toUInt8_cast]
    omega
  simp only [key]

/-! ## Bounds -/

theorem toInt16_natCast (p : Nat) (hp : p < 32768) : toInt16 (p : Int) = (p : Int) := by
  unfold toInt16
  omega

/-- C16: the caller's precondition is enough for in-bounds access.  In a matrix of width
and height at most 85, for every column below the width and line below the height, the
offset used by `getColor` and by `setColor` satisfies `offset + 2 < width*height*3` (the
size of the buffer), and no intermediate value wraps: `line*3` and
`stride - line*3 - 3` lie in `0..255`, `column*stride` lies below `2^15`, and the
conversions to 8 and 16 bits leave these values unchanged. -/
theorem offset_in_bounds (m : RGBpixelmatrix) (width height column line : Nat)
    (hv : Valid m width height) (hw : width ≤ 85) (hh : height ≤ 85)
    (hc : column < width) (hl : line < height) :
    getColorOffset m column line + 2 < width * height * 3 ∧
    setColorOffset m column line + 2 < width * height * 3 ∧
    width * height * 3 = m._colorarray.length ∧
    line * 3 < 256 ∧ toUInt8 ((line : Int) * 3) = line * 3 ∧
    0 ≤ (m._height : Int) - (line : Int) * 3 - 3 ∧
    (m._height : Int) - (line : Int) * 3 - 3 < 256 ∧
    ((toUInt8 ((m._height : Int) - (line : Int) * 3 - 3) : Nat) : Int)
      = (m._height : Int) - (line : Int) * 3 - 3 ∧
    column * m._height < 32768 ∧
    toInt16 ((column : Int) * (m._height : Int)) = (column : Int) * (m._height : Int) ∧
    (column * m._height) % 65536 = column * m._height := by
  have hlt := specOffset_lt width height column line hc hl
  have hp : column * height ≤ 84 * 85 := Nat.mul_le_mul (by omega) hh
  have e : column * m._height = column * height * 3 := by rw [hv.2.1]; ring
  have hs : (m._height : Int) = (height : Int) * 3 := by rw [hv.2.1]; push_cast; rfl
  have hprod : column * m._height < 32768 := by rw [e]; omega
  refine ⟨?_, ?_, hv.2.2.1.symm, by omega, ?_, by omega, by omega, ?_, hprod, ?_, ?_⟩
  · rw [getColorOffset_eq m width height column line hv hw hh hc hl]; exact hlt
  · rw [setColorOffset_eq m width height column line hv hw hh hc hl]; exact hlt
  · rw [toUInt8_mul_three]; omega
  · rw [toUInt8_cast]; omega
  · rw [← Nat.cast_mul]
    exact toInt16_natCast _ hprod
  · omega

/-- Witness for C16: the last line of the last column of an 85x85 matrix. -/
theorem offset_in_bounds_witness :
    getColorOffset (ctor 85 85 (fun _ => 0)) 84 84 + 2 < 85 * 85 * 3 ∧
    setColorOffset (ctor 85 85 (fun _ => 0)) 84 84 + 2 < 85 * 85 * 3 ∧
    85 * 85 * 3 = (ctor 85 85 (fun _ => 0))._colorarray.length ∧
    84 * 3 < 256 ∧ toUInt8 (((84 : Nat) : Int) * 3) = 84 * 3 ∧
    0 ≤ ((ctor 85 85 (fun _ => 0))._height : Int) - ((84 : Nat) : Int) * 3 - 3 ∧
    ((ctor 85 85 (fun _ => 0))._height : Int) - ((84 : Nat) : Int) * 3 - 3 < 256 ∧
    ((toUInt8 (((ctor 85 85 (fun _ => 0))._height : Int) - ((84 : Nat) : Int) * 3 - 3)
        : Nat) : Int)
      = ((ctor 85 85 (fun _ => 0))._height : Int) - ((84 : Nat) : Int) * 3 - 3 ∧
    84 * (ctor 85 85 (fun _ => 0))._height < 32768 ∧
    toInt16 (((84 : Nat) : Int) * ((ctor 85 85 (fun _ => 0))._height : Int))
      = ((84 : Nat) : Int) * ((ctor 85 85 (fun _ => 0))._height : Int) ∧
    (84 * (ctor 85 85 (fun _ => 0))._height) % 65536
      = 84 * (ctor 85 85 (fun _ => 0))._height :=
  offset_in_bounds (ctor 85 85 (fun _ => 0)) 85 85 84 84
    (ctor_valid 85 85 _ (by decide) (by decide)) (by decide) (by decide) (by decide)
    (by decide)

/-! ## The serpentine order -/

theorem specOffset_eq_slot (height column line : Nat) (hl : line < height) :
    specOffset height column line = 3 * slot height column line := by
  unfold specOffset slot
  generalize column * height = p
  split <;> omega

theorem slot_aux_inj (h c k c' k' : Nat) (hk : k < h) (hk' : k' < h)
    (e : c * h + k = c' * h + k') : c = c' ∧ k = k' := by
  rcases Nat.lt_trichotomy c c' with hlt | heq | hgt
  · have := Nat.mul_le_mul_right h (show c + 1 ≤ c' from hlt)
    rw [Nat.add_mul] at this
    omega
  · subst heq
    omega
  · have := Nat.mul_le_mul_right h (show c' + 1 ≤ c from hgt)
    rw [Nat.add_mul] at this
    omega

theorem slot_aux_succ (h c k c' k' : Nat) (hk : k < h) (hk' : k' < h)
    (e : c' * h + k' = c * h + k + 1) :
    (c' = c ∧ k' = k + 1) ∨ (c' = c + 1 ∧ k' = 0 ∧ k + 1 = h) := by
  rcases Nat.lt_trichotomy c' c with hlt | heq | hgt
  · have := Nat.mul_le_mul_right h (show c' + 1 ≤ c from hlt)
    rw [Nat.add_mul] at this
    omega
  · subst heq
    left
    omega
  · rcases Nat.eq_or_lt_of_le (show c + 1 ≤ c' from hgt) with h1 | h2
    · subst h1
      rw [Nat.add_mul] at e
      right
      omega
    · have := Nat.mul_le_mul_right h (show c + 2 ≤ c' from h2)
      rw [Nat.add_mul] at this
      omega

theorem slot_inj (height c l c' l' : Nat) (hl : l < height) (hl' : l' < height)
    (e : slot height c l = slot height c' l') : c = c' ∧ l = l' := by
  unfold slot at e
  have h := slot_aux_inj height c (if c % 2 = 0 then l else height - 1 - l) c'
    (if c' % 2 = 0 then l' else height - 1 - l') (by split <;> omega) (by split <;> omega) e
  obtain ⟨h1, h2⟩ := h
  subst h1
  refine ⟨rfl, ?_⟩
  split at h2 <;> omega

theorem slot_succ (height c l c' l' : Nat) (hl : l < height) (hl' : l' < height)
    (e : slot height c' l' = slot height c l + 1) :
    (c' = c ∧ (l' = l + 1 ∨ l = l' + 1)) ∨ (c' = c + 1 ∧ l' = l) := by
  unfold slot at e
  have h := slot_aux_succ height c (if c % 2 = 0 then l else height - 1 - l) c'
    (if c' % 2 = 0 then l' else height - 1 - l') (by split <;> omega) (by split <;> omega)
    (by omega)
  rcases h with ⟨h1, h2⟩ | ⟨h1, h2, h3⟩
  · subst h1
    left
    refine ⟨rfl, ?_⟩
    split at h2 <;> omega
  · subst h1
    right
    refine ⟨rfl, ?_⟩
    by_cases hpar : c % 2 = 0
    · rw [if_pos hpar] at h3
      rw [if_neg (by omega)] at h2
      omega
    · rw [if_neg hpar] at h3
      rw [if_pos (by omega)] at h2
      omega

/-- C15: the serpentine order is continuous along the wire.  In a matrix of width and
height in 1..85, two in-range pixels whose 3-byte slots follow each other in the buffer
(the second offset is the first plus 3) are neighbours in the grid: same column and lines
differing by 1, or adjacent columns and the same line.  In particular the last slot of a
column `c` and the first slot of column `c+1` hold the same line, `height-1` when `c` is
even and `0` when `c` is odd. -/
theorem serpentine_continuous (m : RGBpixelmatrix) (width height : Nat)
    (hv : Valid m width height) (hw : width ≤ 85) (hh1 : 1 ≤ height) (hh : height ≤ 85) :
    (∀ c l c' l', c < width → l < height → c' < width → l' < height →
      setColorOffset m c' l' = setColorOffset m c l + 3 →
      (c' = c ∧ (l' = l + 1 ∨ l = l' + 1)) ∨ (c' = c + 1 ∧ l' = l)) ∧
    (∀ c, c + 1 < width → c % 2 = 0 →
      setColorOffset m c (height - 1) + 3 = (c + 1) * height * 3 ∧
      setColorOffset m (c + 1) (height - 1) = (c + 1) * height * 3) ∧
    (∀ c, c + 1 < width → c % 2 = 1 →
      setColorOffset m c 0 + 3 = (c + 1) * height * 3 ∧
      setColorOffset m (c + 1) 0 = (c + 1) * height * 3) := by
  refine ⟨?_, ?_, ?_⟩
  · intro c l c' l' hc hl hc' hl' hadj
    rw [setColorOffset_eq m width height c l hv hw hh hc hl,
      setColorOffset_eq m width height c' l' hv hw hh hc' hl',
      specOffset_eq_slot height c l hl, specOffset_eq_slot height c' l' hl'] at hadj
    exact slot_succ height c l c' l' hl hl' (by omega)
  · intro c hc hpar
    rw [setColorOffset_eq m width height c (height - 1) hv hw hh (by omega) (by omega),
      setColorOffset_eq m width height (c + 1) (height - 1) hv hw hh hc (by omega)]
    unfold specOffset
    rw [if_pos hpar, if_neg (by omega), Nat.add_mul]
    generalize c * height = p
    constructor <;> omega
  · intro c hc hpar
    rw [setColorOffset_eq m width height c 0 hv hw hh (by omega) (by omega),
      setColorOffset_eq m width height (c + 1) 0 hv hw hh hc (by omega)]
    unfold specOffset
    rw [if_neg (by omega), if_pos (by omega), Nat.add_mul]
    generalize c * height = p
    constructor <;> omega

/-- Witness for C15: a 4x3 matrix. -/
theorem serpentine_continuous_witness :
    (∀ c l c' l', c < 4 → l < 3 → c' < 4 → l' < 3 →
      setColorOffset (ctor 4 3 (fun _ => 0)) c' l'
        = setColorOffset (ctor 4 3 (fun _ => 0)) c l + 3 →
      (c' = c ∧ (l' = l + 1 ∨ l = l' + 1)) ∨ (c' = c + 1 ∧ l' = l)) ∧
    (∀ c, c + 1 < 4 → c % 2 = 0 →
      setColorOffset (ctor 4 3 (fun _ => 0)) c (3 - 1) + 3 = (c + 1) * 3 * 3 ∧
      setColorOffset (ctor 4 3 (fun _ => 0)) (c + 1) (3 - 1) = (c + 1) * 3 * 3) ∧
    (∀ c, c + 1 < 4 → c % 2 = 1 →
      setColorOffset (ctor 4 3 (fun _ => 0)) c 0 + 3 = (c + 1) * 3 * 3 ∧
      setColorOffset (ctor 4 3 (fun _ => 0)) (c + 1) 0 = (c + 1) * 3 * 3) :=
  serpentine_continuous (ctor 4 3 (fun _ => 0)) 4 3 (by decide) (by decide) (by decide)
    (by decide)

/-! ## Frame of `setColor` -/

theorem getColor_eq_of_loads (m m' : RGBpixelmatrix) (column line : Nat)
    (hh : m'._height = m._height)
    (h0 : m'._colorarray[getColorOffset m column line]?
      = m._colorarray[getColorOffset m column line]?)
    (h1 : m'._colorarray[(getColorOffset m column line + 1) % 65536]?
      = m._colorarray[(getColorOffset m column line + 1) % 65536]?)
    (h2 : m'._colorarray[(getColorOffset m column line + 2) % 65536]?
      = m._colorarray[(getColorOffset m column line + 2) % 65536]?) :
    getColor m' column line = getColor m column line := by
  have ho : getColorOffset m' column line = getColorOffset m column line := by
    unfold getColorOffset
    rw [hh]
  unfold getColor load
  simp only [ho, h0, h1, h2]

theorem getColor_isSome (m : RGBpixelmatrix) (width height column line : Nat)
    (hv : Valid m width height) (hw : width ≤ 85) (hh : height ≤ 85)
    (hc : column < width) (hl : line < height) :
    ∃ Q, getColor m column line = some Q := by
  have hs := buffer_size_le width height hw hh
  have hlt := specOffset_lt width height column line hc hl
  have hlen := hv.2.2.1
  have b0 : specOffset height column line < m._colorarray.length := by omega
  have b1 : specOffset height column line + 1 < m._colorarray.length := by omega
  have b2 : specOffset height column line + 2 < m._colorarray.length := by omega
  exact ⟨_, getColor_of_offset m column line (specOffset height column line)
    (m._colorarray[specOffset height column line])
    (m._colorarray[specOffset height column line + 1])
    (m._colorarray[specOffset height column line + 2])
    (getColorOffset_eq m width height column line hv hw hh hc hl) (by omega)
    (List.getElem?_eq_getElem b0) (List.getElem?_eq_getElem b1)
    (List.getElem?_eq_getElem b2)⟩

/-- C17: `setColor` touches one pixel only.  In a matrix of width and height at most 85,
for in-range pixels `(c, l)` and `(c', l')` that differ, `setColor c l P` succeeds and
`getColor c' l'` returns the same pixel after it as before it; the 3-byte slots of the
two pixels do not overlap (so the mapping from coordinates to offsets is injective), and
the width and height members are unchanged. -/
theorem setColor_frame (m : RGBpixelmatrix) (width height c l c' l' : Nat) (P : RGB)
    (hv : Valid m width height) (hw : width ≤ 85) (hh : height ≤ 85)
    (hc : c < width) (hl : l < height) (hc' : c' < width) (hl' : l' < height)
    (hne : ¬ (c' = c ∧ l' = l)) :
    (setColorOffset m c' l' + 3 ≤ setColorOffset m c l ∨
      setColorOffset m c l + 3 ≤ setColorOffset m c' l') ∧
    ∃ m', setColor m c l P = some m' ∧
      getColor m' c' l' = getColor m c' l' ∧
      (∃ Q, getColor m c' l' = some Q) ∧
      m'._width = m._width ∧ m'._height = m._height := by
  have hs := buffer_size_le width height hw hh
  have hlt' := specOffset_lt width height c' l' hc' hl'
  have hslot : slot height c' l' ≠ slot height c l := by
    intro e
    exact hne (slot_inj height c' l' c l hl' hl e)
  have hsep : specOffset height c' l' + 3 ≤ specOffset height c l ∨
      specOffset height c l + 3 ≤ specOffset height c' l' := by
    rw [specOffset_eq_slot height c l hl, specOffset_eq_slot height c' l' hl']
    omega
  have hg := getColorOffset_eq m width height c' l' hv hw hh hc' hl'
  refine ⟨?_, _, setColor_eq_written m width height c l P hv hw hh hc hl, ?_,
    getColor_isSome m width height c' l' hv hw hh hc' hl', rfl, rfl⟩
  · rw [setColorOffset_eq m width height c l hv hw hh hc hl,
      setColorOffset_eq m width height c' l' hv hw hh hc' hl']
    exact hsep
  · refine getColor_eq_of_loads m _ c' l' rfl ?_ ?_ ?_
    · rw [hg]
      exact getElem?_written_other _ _ _ _ (by omega) (by omega) (by omega)
    · rw [hg, Nat.mod_eq_of_lt (by omega)]
      exact getElem?_written_other _ _ _ _ (by omega) (by omega) (by omega)
    · rw [hg, Nat.mod_eq_of_lt (by omega)]
      exact getElem?_written_other _ _ _ _ (by omega) (by omega) (by omega)

/-- Witness for C17: pixels (1,0) and (2,0) of a 4x3 matrix, whose slots are apart. -/
theorem setColor_frame_witness :
    (setColorOffset (ctor 4 3 (fun i => i)) 2 0 + 3
        ≤ setColorOffset (ctor 4 3 (fun i => i)) 1 0 ∨
      setColorOffset (ctor 4 3 (fun i => i)) 1 0 + 3
        ≤ setColorOffset (ctor 4 3 (fun i => i)) 2 0) ∧
    ∃ m', setColor (ctor 4 3 (fun i => i)) 1 0 { r := 10, g := 20, b := 30 } = some m' ∧
      getColor m' 2 0 = getColor (ctor 4 3 (fun i => i)) 2 0 ∧
      (∃ Q, getColor (ctor 4 3 (fun i => i)) 2 0 = some Q) ∧
      m'._width = (ctor 4 3 (fun i => i))._width ∧
      m'._height = (ctor 4 3 (fun i => i))._height :=
  setColor_frame (ctor 4 3 (fun i => i)) 4 3 1 0 2 0 { r := 10, g := 20, b := 30 }
    (by decide) (by decide) (by decide) (by decide) (by decide) (by decide) (by decide)
    (by decide)

/-! ## Interrupt flag after sending -/

theorem execTrace_append (hw : Hardware) (s t : List Event) :
    execTrace hw (s ++ t) = execTrace (execTrace hw s) t := by
  unfold execTrace
  exact List.foldl_append _ _ _ _

/-- C18: `sendColors` ends with interrupts globally enabled whatever the interrupt flag
was on entry.  In a matrix of width and height at most 85, a call made in any hardware
state returns, the interrupt flag is set afterwards (also when it was clear on entry: the
state of the caller is not restored), the trace ends with the unconditional `sei`, and
the object (buffer, width, height) is the same after the call. -/
theorem sendColors_enables_interrupts (m : RGBpixelmatrix) (width height : Nat)
    (hw0 : Hardware) (hv : Valid m width height) (hw : width ≤ 85) (hh : height ≤ 85) :
    ∃ trace hw1, sendColors m = some (trace ++ [Event.sei]) ∧
      sendColorsCall m hw0 = some (m, hw1) ∧
      hw1.interruptsEnabled = true ∧
      (hw0.interruptsEnabled = false → hw1.interruptsEnabled ≠ hw0.interruptsEnabled) := by
  have hsend := sendColors_eq m width height hv hw hh
  refine ⟨Event.cli :: m._colorarray.flatMap bytePulses,
    execTrace hw0 (Event.cli :: (m._colorarray.flatMap bytePulses ++ [Event.sei])),
    hsend, ?_, ?_, ?_⟩
  · unfold sendColorsCall
    rw [hsend]
    rfl
  · rw [← List.cons_append, execTrace_append]
    rfl
  · intro h0
    rw [h0, ← List.cons_append, execTrace_append]
    exact Bool.noConfusion

/-- Witness for C18: a 1x1 matrix, the call made with interrupts disabled. -/
theorem sendColors_enables_interrupts_witness :
    ∃ trace hw1, sendColors (ctor 1 1 (fun i => i)) = some (trace ++ [Event.sei]) ∧
      sendColorsCall (ctor 1 1 (fun i => i)) { interruptsEnabled := false, pin7 := false }
        = some (ctor 1 1 (fun i => i), hw1) ∧
      hw1.interruptsEnabled = true ∧
      ((Hardware.mk false false).interruptsEnabled = false →
        hw1.interruptsEnabled ≠ (Hardware.mk false false).interruptsEnabled) :=
  sendColors_enables_interrupts (ctor 1 1 (fun i => i)) 1 1
    { interruptsEnabled := false, pin7 := false } (by decide) (by decide) (by decide)

/-! ## Colour conversion -/

theorem exactEnv_binary32 : exactEnv.Binary32 := by
  refine ⟨fun n _ => rfl, ?_, ?_⟩
  · intro x h1 _
    show |x - x| ≤ x / 2 ^ 24
    rw [sub_self, abs_zero]
    positivity
  · intro x n _ h
    show ⌊x + 1 / 2⌋ = n
    rw [abs_le] at h
    rw [Int.floor_eq_iff]
    constructor <;> linarith [h.1, h.2]

theorem rnd_natCast (env : FloatEnv) (henv : env.Binary32) (n : Nat) (hn : n ≤ 2 ^ 24) :
    env.rnd (n : ℚ) = (n : ℚ) := by
  have h := henv.1 (n : Int) (by rw [abs_of_nonneg (by positivity)]; exact_mod_cast hn)
  exact_mod_cast h

theorem abs_natCast_le (n : Nat) (hn : n ≤ 255) : |(n : Int)| ≤ 2 ^ 16 := by
  rw [abs_of_nonneg (Int.ofNat_nonneg n)]
  omega

theorem round_natCast (env : FloatEnv) (henv : env.Binary32) (n : Nat) (hn : n ≤ 255) :
    env.round (n : ℚ) = (n : Int) := by
  apply henv.2.2 _ _ (abs_natCast_le n hn)
  rw [Int.cast_natCast, sub_self, abs_zero]
  norm_num

theorem channel_of_near (env : FloatEnv) (henv : env.Binary32) (x : ℚ) (n : Nat)
    (hn : n ≤ 255) (h : |env.rnd (255 * x) - (n : ℚ)| ≤ 1 / 4) : channel env x = n := by
  unfold channel
  rw [henv.2.2 _ (n : Int) (abs_natCast_le n hn) (by rw [Int.cast_natCast]; exact h),
    toUInt8_natCast]
  omega

theorem hsvS_zero (env : FloatEnv) (henv : env.Binary32) : hsvS env 0 = 0 := by
  unfold hsvS
  rw [zero_div]
  exact_mod_cast rnd_natCast env henv 0 (by norm_num)

theorem HSVtoRGB_gray (env : FloatEnv) (henv : env.Binary32) (H V : ℚ) :
    HSVtoRGB env H 0 V
      = { r := channel env (hsvV env V), g := channel env (hsvV env V),
          b := channel env (hsvV env V) } := by
  unfold HSVtoRGB
  simp only [hsvS_zero env henv, if_true]

theorem channel_hsvV_natCast (env : FloatEnv) (henv : env.Binary32) (n : Nat)
    (hn : n ≤ 255) : channel env (hsvV env (n : ℚ)) = n := by
  apply channel_of_near env henv _ n hn
  unfold hsvV
  rcases Nat.eq_zero_or_pos n with h0 | hpos
  · subst h0
    have r0 : env.rnd 0 = 0 := by exact_mod_cast rnd_natCast env henv 0 (by norm_num)
    rw [Nat.cast_zero, zero_div, r0, mul_zero, r0, sub_self, abs_zero]
    norm_num
  · have hn1 : (1 : ℚ) ≤ (n : ℚ) := by exact_mod_cast hpos
    have hn2 : (n : ℚ) ≤ 255 := by exact_mod_cast hn
    have ha1 : (1 : ℚ) / 256 ≤ (n : ℚ) / 255 := by
      rw [div_le_div_iff₀ (by norm_num) (by norm_num)]; linarith
    have ha2 : (n : ℚ) / 255 ≤ 256 := by
      rw [div_le_iff₀ (by norm_num)]; linarith
    have e1 := henv.2.1 ((n : ℚ) / 255) ha1 ha2
    rw [abs_le] at e1
    have hna : 255 * ((n : ℚ) / 255) = n := by field_simp
    have hsmall : (n : ℚ) / 255 / 2 ^ 24 ≤ 1 / 2 ^ 24 := by
      rw [div_le_div_iff₀ (by positivity) (by positivity)]
      have : (n : ℚ) / 255 ≤ 1 := by rw [div_le_iff₀ (by norm_num)]; linarith
      nlinarith [this]
    have hb1 : (1 : ℚ) / 256 ≤ 255 * env.rnd ((n : ℚ) / 255) := by
      norm_num at hsmall ⊢
      linarith [e1.1]
    have hb2 : 255 * env.rnd ((n : ℚ) / 255) ≤ 256 := by
      norm_num at hsmall ⊢
      linarith [e1.2]
    have e2 := henv.2.1 _ hb1 hb2
    rw [abs_le] at e2
    have hb3 : 255 * env.rnd ((n : ℚ) / 255) / 2 ^ 24 ≤ 256 / 2 ^ 24 :=
      div_le_div_of_nonneg_right hb2 (by positivity)
    rw [abs_le]
    norm_num at hsmall hb3 e1 e2 ⊢
    constructor <;> linarith [e1.1, e1.2, e2.1, e2.2]

/-- C12: with zero saturation `HSVtoRGB` yields gray, whatever the hue.  For an
arithmetic with the properties of binary32, `HSVtoRGB h 0 v` has its three channels equal
to `round(255 * (v / 255))` (as stored in a byte), the result does not depend on `h`, and
for an integer `v` in `0..255` the three channels are `v`. -/
theorem HSVtoRGB_zero_saturation (env : FloatEnv) (henv : env.Binary32) (H V : ℚ) :
    HSVtoRGB env H 0 V
      = { r := toUInt8 (env.round (env.rnd (255 * env.rnd (V / 255)))),
          g := toUInt8 (env.round (env.rnd (255 * env.rnd (V / 255)))),
          b := toUInt8 (env.round (env.rnd (255 * env.rnd (V / 255)))) } ∧
    (∀ H', HSVtoRGB env H' 0 V = HSVtoRGB env H 0 V) ∧
    (∀ n : Nat, n ≤ 255 → V = (n : ℚ) → HSVtoRGB env H 0 V = { r := n, g := n, b := n }) := by
  refine ⟨HSVtoRGB_gray env henv H V, ?_, ?_⟩
  · intro H'
    rw [HSVtoRGB_gray env henv H V, HSVtoRGB_gray env henv H' V]
  · intro n hn hV
    rw [HSVtoRGB_gray env henv H V, hV, channel_hsvV_natCast env henv n hn]

/-- Witness for C12: exact arithmetic, hue 100, value 200. -/
theorem HSVtoRGB_zero_saturation_witness :
    HSVtoRGB exactEnv 100 0 200
      = { r := toUInt8 (exactEnv.round (exactEnv.rnd (255 * exactEnv.rnd (200 / 255)))),
          g := toUInt8 (exactEnv.round (exactEnv.rnd (255 * exactEnv.rnd (200 / 255)))),
          b := toUInt8 (exactEnv.round (exactEnv.rnd (255 * exactEnv.rnd (200 / 255)))) } ∧
    (∀ H', HSVtoRGB exactEnv H' 0 200 = HSVtoRGB exactEnv 100 0 200) ∧
    (∀ n : Nat, n ≤ 255 → (200 : ℚ) = (n : ℚ) →
      HSVtoRGB exactEnv 100 0 200 = { r := n, g := n, b := n }) :=
  HSVtoRGB_zero_saturation exactEnv exactEnv_binary32 100 200

theorem floatToInt_zero : floatToInt 0 = 0 := by
  unfold floatToInt toInt16
  simp

theorem channel_natCast (env : FloatEnv) (henv : env.Binary32) (k n : Nat)
    (hn : n ≤ 255) (hk : (255 : ℚ) * (k : ℚ) = (n : ℚ)) : channel env (k : ℚ) = n := by
  apply channel_of_near env henv _ n hn
  rw [hk, rnd_natCast env henv n (by omega), sub_self, abs_zero]
  norm_num

/-- C13: for an arithmetic with the properties of binary32, `HSVtoRGB 0 255 255` is pure
red, r=255, g=0, b=0: `s` and `v` are 1, the sector index `i` is 0, `f`, `p` and `t` are
0, and sector 0 assigns `r = v`, `g = t`, `b = p`. -/
theorem HSVtoRGB_pure_red (env : FloatEnv) (henv : env.Binary32) :
    HSVtoRGB env 0 255 255 = { r := 255, g := 0, b := 0 } ∧
    hsvS env 255 = 1 ∧ hsvV env 255 = 1 ∧ hsvI env 0 = 0 ∧ hsvF env 0 = 0 ∧
    hsvP env 1 1 = 0 ∧ hsvT env 1 1 0 = 0 ∧
    HSVtoRGB env 0 255 255
      = { r := channel env (hsvV env 255),
          g := channel env (hsvT env (hsvS env 255) (hsvV env 255) (hsvF env 0)),
          b := channel env (hsvP env (hsvS env 255) (hsvV env 255)) } := by
  have r0 : env.rnd 0 = 0 := by exact_mod_cast rnd_natCast env henv 0 (by norm_num)
  have r1 : env.rnd 1 = 1 := by exact_mod_cast rnd_natCast env henv 1 (by norm_num)
  have hs : hsvS env 255 = 1 := by
    unfold hsvS
    rw [div_self (by norm_num), r1]
  have hv : hsvV env 255 = 1 := hs
  have hi : hsvI env 0 = 0 := by
    unfold hsvI
    rw [zero_div, r0, floatToInt_zero]
    rfl
  have hf : hsvF env 0 = 0 := by
    unfold hsvF
    rw [zero_div, r0, floatToInt_zero, Int.cast_zero, sub_self, r0]
  have hp : hsvP env 1 1 = 0 := by
    unfold hsvP
    rw [sub_self, r0, mul_zero, r0]
  have ht : hsvT env 1 1 0 = 0 := by
    unfold hsvT
    rw [sub_zero, r1, mul_one, r1, sub_self, r0, mul_zero, r0]
  have c1 : channel env 1 = 255 := by
    exact_mod_cast channel_natCast env henv 1 255 (by norm_num) (by norm_num)
  have c0 : channel env 0 = 0 := by
    exact_mod_cast channel_natCast env henv 0 0 (by norm_num) (by norm_num)
  have hform : HSVtoRGB env 0 255 255
      = { r := channel env (hsvV env 255),
          g := channel env (hsvT env (hsvS env 255) (hsvV env 255) (hsvF env 0)),
          b := channel env (hsvP env (hsvS env 255) (hsvV env 255)) } := by
    unfold HSVtoRGB
    simp only [hs, hi, one_ne_zero, if_false, if_true]
  refine ⟨?_, hs, hv, hi, hf, hp, ht, hform⟩
  rw [hform, hs, hv, hf, ht, hp, c1, c0]

/-- Witness for C13: exact arithmetic. -/
theorem HSVtoRGB_pure_red_witness :
    HSVtoRGB exactEnv 0 255 255 = { r := 255, g := 0, b := 0 } ∧
    hsvS exactEnv 255 = 1 ∧ hsvV exactEnv 255 = 1 ∧ hsvI exactEnv 0 = 0 ∧
    hsvF exactEnv 0 = 0 ∧ hsvP exactEnv 1 1 = 0 ∧ hsvT exactEnv 1 1 0 = 0 ∧
    HSVtoRGB exactEnv 0 255 255
      = { r := channel exactEnv (hsvV exactEnv 255),
          g := channel exactEnv
            (hsvT exactEnv (hsvS exactEnv 255) (hsvV exactEnv 255) (hsvF exactEnv 0)),
          b := channel exactEnv (hsvP exactEnv (hsvS exactEnv 255) (hsvV exactEnv 255)) } :=
  HSVtoRGB_pure_red exactEnv exactEnv_binary32

end RGBpixelmatrix

end RGBPixelmatrix
